import Mathlib

/-!
Verification development for the fitness-planner single-page application
(`src/App.jsx`).  The JavaScript source is shallowly embedded: the JSON
values the app manipulates become the inductive type `Json`; the platform
pair `JSON.stringify` / `JSON.parse` becomes `render` / `parseJson`
(numeric literals are modelled as integers; float literals are a platform
concern outside the claims); the handlers `generatePlan`, `generateImage`,
`speakSection`, `exportPDF` and the `useState` initialisers become pure
functions from their inputs (credentials, oracle outcome, prior state) to
the resulting state plus the observable effects (requests issued, alerts
shown, speech/audio actions).
-/

namespace FitnessApp

/-! ### Characters and whitespace

`isJsonWs` is the whitespace accepted between JSON tokens by `JSON.parse`
(space, tab, line feed, carriage return).  `isJsWs` models the larger
class matched by the JavaScript regex `\s` and by `String.prototype.trim`
(the ASCII escapes plus the Unicode space separators used by the
ECMAScript `WhiteSpace`/`LineTerminator` productions). -/

def isJsonWs (c : Char) : Bool :=
  c.toNat = 32 || c.toNat = 9 || c.toNat = 10 || c.toNat = 13

def isJsWs (c : Char) : Bool :=
  c.toNat = 32 || c.toNat = 9 || c.toNat = 10 || c.toNat = 13 ||
  c.toNat = 11 || c.toNat = 12 ||
  c.toNat = 0xa0 || c.toNat = 0x1680 ||
  (0x2000 ≤ c.toNat && c.toNat ≤ 0x200a) ||
  c.toNat = 0x2028 || c.toNat = 0x2029 || c.toNat = 0x202f ||
  c.toNat = 0x205f || c.toNat = 0x3000 || c.toNat = 0xfeff

def dropRightWhileL (p : Char → Bool) (cs : List Char) : List Char :=
  (cs.reverse.dropWhile p).reverse

/-- Model of JavaScript `String.prototype.trim` (used as `raw.trim()` on the
oracle's response text). -/
def jsTrim (s : String) : String :=
  ⟨dropRightWhileL isJsWs (s.data.dropWhile isJsWs)⟩

/-! ### The code-fence strip

`App.jsx` line 185: `raw.replace(/^```json\s*|\s*```$/g, "")`.
The first alternative matches only at the start of the string and only
when the backticks are immediately followed by the letters `json`; the
second matches a run of whitespace followed by three backticks at the very
end of the string.  With the `g` flag both (non-overlapping) matches are
removed. -/

def stripFence (s : String) : String :=
  let cs := s.data
  let cs :=
    if ("```json".data).isPrefixOf cs then
      (cs.drop 7).dropWhile isJsWs
    else cs
  let cs :=
    if ("```".data).isSuffixOf cs then
      dropRightWhileL isJsWs (cs.take (cs.length - 3))
    else cs
  ⟨cs⟩

/-! ### JSON values -/

inductive Json where
  | null : Json
  | bool (b : Bool) : Json
  | num (n : Int) : Json
  | str (s : String) : Json
  | arr (xs : List Json) : Json
  | obj (fields : List (String × Json)) : Json

/-- JavaScript truthiness of a parsed JSON value (`plan ? ... : ...`,
`if (!plan) return`, `overview || fallback`). -/
def truthy : Json → Bool
  | .null => false
  | .bool b => b
  | .num n => n ≠ 0
  | .str s => s ≠ ""
  | .arr _ => true
  | .obj _ => true

/-! ### Decimal numerals

`natToChars` is the usual base-10 numeral, written with explicit fuel so
that it evaluates by kernel reduction.  It models the decimal output of
`JSON.stringify` on an integer. -/

def digitChar (d : Nat) : Char :=
  Char.ofNat ('0'.toNat + d)

def natToCharsAux : Nat → Nat → List Char
  | 0, _ => []
  | fuel + 1, n =>
      if n < 10 then [digitChar n]
      else natToCharsAux fuel (n / 10) ++ [digitChar (n % 10)]

def natToChars (n : Nat) : List Char :=
  natToCharsAux (n + 1) n

def intToChars (n : Int) : List Char :=
  if n < 0 then '-' :: natToChars n.natAbs else natToChars n.natAbs

/-! ### Rendering (model of `JSON.stringify`) -/

def hexDigitChar (d : Nat) : Char :=
  if d < 10 then Char.ofNat ('0'.toNat + d) else Char.ofNat ('a'.toNat + (d - 10))

/-- String-character escaping performed by `JSON.stringify`. -/
def escChar (c : Char) : List Char :=
  if c = '\"' then ['\\', '\"']
  else if c = '\\' then ['\\', '\\']
  else if c = '\n' then ['\\', 'n']
  else if c = '\t' then ['\\', 't']
  else if c = '\r' then ['\\', 'r']
  else if c = '\x08' then ['\\', 'b']
  else if c = '\x0c' then ['\\', 'f']
  else if c.toNat < 32 then
    ['\\', 'u', '0', '0', hexDigitChar (c.toNat / 16), hexDigitChar (c.toNat % 16)]
  else [c]

def renderStringChars (s : String) : List Char :=
  '\"' :: s.data.flatMap escChar ++ ['\"']

mutual

def renderChars : Json → List Char
  | .null => "null".data
  | .bool true => "true".data
  | .bool false => "false".data
  | .num n => intToChars n
  | .str s => renderStringChars s
  | .arr xs => '[' :: renderList xs ++ [']']
  | .obj fs => '{' :: renderMembers fs ++ ['}']

def renderList : List Json → List Char
  | [] => []
  | [x] => renderChars x
  | x :: y :: xs => renderChars x ++ ',' :: renderList (y :: xs)

def renderMembers : List (String × Json) → List Char
  | [] => []
  | [(k, v)] => renderStringChars k ++ ':' :: renderChars v
  | (k, v) :: m :: fs =>
      renderStringChars k ++ ':' :: renderChars v ++ ',' :: renderMembers (m :: fs)

end

/-- Model of `JSON.stringify` as used on the parsed plan. -/
def render (j : Json) : String :=
  ⟨renderChars j⟩

/-! ### Parsing (model of `JSON.parse`)

A recursive-descent parser over the character list, with explicit fuel so
that every recursion is structural (and hence kernel-evaluable).  The
top-level entry point supplies ample fuel and requires the whole input to
be consumed, as `JSON.parse` does. -/

def skipWs (cs : List Char) : List Char :=
  cs.dropWhile isJsonWs

def expectChars : List Char → List Char → Option (List Char)
  | [], cs => some cs
  | e :: es, c :: cs => if c = e then expectChars es cs else none
  | _ :: _, [] => none

def hexVal? (c : Char) : Option Nat :=
  if '0'.toNat ≤ c.toNat ∧ c.toNat ≤ '9'.toNat then some (c.toNat - '0'.toNat)
  else if 'a'.toNat ≤ c.toNat ∧ c.toNat ≤ 'f'.toNat then some (c.toNat - 'a'.toNat + 10)
  else if 'A'.toNat ≤ c.toNat ∧ c.toNat ≤ 'F'.toNat then some (c.toNat - 'A'.toNat + 10)
  else none

def unescape? (c : Char) : Option Char :=
  if c = '\"' then some '\"'
  else if c = '\\' then some '\\'
  else if c = '/' then some '/'
  else if c = 'n' then some '\n'
  else if c = 't' then some '\t'
  else if c = 'r' then some '\r'
  else if c = 'b' then some '\x08'
  else if c = 'f' then some '\x0c'
  else none

def digitVal (c : Char) : Nat :=
  c.toNat - '0'.toNat

/-- A decimal-digit character, by code point. -/
def isDigitChar (c : Char) : Bool :=
  48 ≤ c.toNat && c.toNat ≤ 57

def parseNatChars (cs : List Char) : Option (Nat × List Char) :=
  match cs with
  | c :: _ =>
      if isDigitChar c then
        some ((cs.takeWhile isDigitChar).foldl (fun a d => a * 10 + digitVal d) 0,
              cs.dropWhile isDigitChar)
      else none
  | [] => none

def parseNumber : List Char → Option (Json × List Char)
  | [] => none
  | c :: rest =>
      if c = '-' then (parseNatChars rest).map fun p => (Json.num (-(p.1 : Int)), p.2)
      else (parseNatChars (c :: rest)).map fun p => (Json.num (p.1 : Int), p.2)

mutual

def parseVal : Nat → List Char → Option (Json × List Char)
  | 0, _ => none
  | fuel + 1, cs =>
      match skipWs cs with
      | [] => none
      | c :: rest =>
        if c = '\"' then
          (parseStr fuel rest).map fun p => (Json.str ⟨p.1⟩, p.2)
        else if c = '[' then
          match skipWs rest with
          | [] => none
          | c2 :: r =>
              if c2 = ']' then some (Json.arr [], r)
              else (parseElems fuel (c2 :: r)).map fun p => (Json.arr p.1, p.2)
        else if c = '{' then
          match skipWs rest with
          | [] => none
          | c2 :: r =>
              if c2 = '}' then some (Json.obj [], r)
              else (parseMembs fuel (c2 :: r)).map fun p => (Json.obj p.1, p.2)
        else if c = 'n' then
          (expectChars ['u', 'l', 'l'] rest).map fun r => (Json.null, r)
        else if c = 't' then
          (expectChars ['r', 'u', 'e'] rest).map fun r => (Json.bool true, r)
        else if c = 'f' then
          (expectChars ['a', 'l', 's', 'e'] rest).map fun r => (Json.bool false, r)
        else
          parseNumber (c :: rest)

def parseStr : Nat → List Char → Option (List Char × List Char)
  | 0, _ => none
  | fuel + 1, cs =>
      match cs with
      | [] => none
      | c :: rest =>
        if c = '\"' then some ([], rest)
        else if c = '\\' then
          match rest with
          | [] => none
          | e :: rest2 =>
            if e = 'u' then
              match rest2 with
              | h1 :: h2 :: h3 :: h4 :: rest3 =>
                  match hexVal? h1, hexVal? h2, hexVal? h3, hexVal? h4 with
                  | some a, some b, some c3, some d =>
                      (parseStr fuel rest3).map fun p =>
                        (Char.ofNat (a * 4096 + b * 256 + c3 * 16 + d) :: p.1, p.2)
                  | _, _, _, _ => none
              | _ => none
            else
              match unescape? e with
              | some c2 => (parseStr fuel rest2).map fun p => (c2 :: p.1, p.2)
              | none => none
        else (parseStr fuel rest).map fun p => (c :: p.1, p.2)

def parseElems : Nat → List Char → Option (List Json × List Char)
  | 0, _ => none
  | fuel + 1, cs =>
      match parseVal fuel cs with
      | none => none
      | some (j, r1) =>
          match skipWs r1 with
          | [] => none
          | c :: r2 =>
              if c = ',' then (parseElems fuel r2).map fun p => (j :: p.1, p.2)
              else if c = ']' then some ([j], r2)
              else none

def parseMembs : Nat → List Char → Option (List (String × Json) × List Char)
  | 0, _ => none
  | fuel + 1, cs =>
      match skipWs cs with
      | [] => none
      | c :: r =>
        if c = '\"' then
          match parseStr fuel r with
          | none => none
          | some (k, r1) =>
              match skipWs r1 with
              | [] => none
              | c2 :: r2 =>
                if c2 = ':' then
                  match parseVal fuel r2 with
                  | none => none
                  | some (v, r3) =>
                      match skipWs r3 with
                      | [] => none
                      | c3 :: r4 =>
                        if c3 = ',' then
                          (parseMembs fuel r4).map fun p => ((⟨k⟩, v) :: p.1, p.2)
                        else if c3 = '}' then some ([(⟨k⟩, v)], r4)
                        else none
                else none
        else none

end

/-- Model of `JSON.parse`: `none` is a thrown `SyntaxError`. -/
def parseJson (s : String) : Option Json :=
  match parseVal (2 * s.data.length + 2) s.data with
  | some (j, rest) => if skipWs rest = [] then some j else none
  | none => none

/-! ### Application state

The two view steps (`currentStep`), the user's form record (`formData`),
and the slice of component state touched by `generatePlan`: the held plan
(`plan`, a JavaScript value, so `Json.null` doubles as the JS `null` of
`useState(null)`), the durable string store (`localStorage`), and the
current step. -/

inductive Step where
  | form : Step
  | plan : Step
deriving DecidableEq

/-- The flat `formData` record (all fields are strings in the DOM). -/
structure UserProfile where
  name : String
  age : String
  gender : String
  height : String
  weight : String
  fitnessGoal : String
  fitnessLevel : String
  workoutLocation : String
  dietaryPreference : String
  medicalHistory : String
  stressLevel : String
deriving DecidableEq

structure GenState where
  plan : Json
  storage : String → Option String
  currentStep : Step

/-- Outcome of the single awaited text-oracle call: the SDK promise either
rejects (network or HTTP error — `thrown`) or resolves with a response
whose optional chain `res?.candidates?.[0]?.content?.parts?.[0]?.text`
yields `text`. -/
inductive GenOutcome where
  | thrown (msg : String) : GenOutcome
  | responded (text : Option String) : GenOutcome

structure GenResult where
  state : GenState
  alerts : List String
  requests : List UserProfile

def planAlertMissingKey : String := "Enter your Gemini API key first!"

/-- The platform's `SyntaxError` message text is opaque; only its presence
matters. -/
def jsonErrorMessage : String := "Unexpected token in JSON"

/-- `raw = (text?.trim() || "")` followed by the fence strip producing
`clean` (App.jsx lines 184–185). -/
def cleanedResponse (text : Option String) : String :=
  stripFence (match text with | none => "" | some t => jsTrim t)

/-- Model of the `generatePlan` handler (App.jsx lines 142–196).  The
`.responded`/`.thrown` outcome stands for the awaited oracle call, so a
result with that outcome records one issued request; the missing-key guard
returns before any request.  `JSON.parse` failure and promise rejection
land in the same `catch`, which alerts and touches none of the plan
state. -/
def generatePlan (profile : UserProfile) (apiKey : String) (outcome : GenOutcome)
    (st : GenState) : GenResult :=
  if apiKey = "" then
    { state := st, alerts := [planAlertMissingKey], requests := [] }
  else
    match outcome with
    | .thrown msg =>
        { state := st, alerts := ["❌ Failed to generate plan: " ++ msg], requests := [profile] }
    | .responded text =>
        match parseJson (cleanedResponse text) with
        | none =>
            { state := st
              alerts := ["❌ Failed to generate plan: " ++ jsonErrorMessage]
              requests := [profile] }
        | some json =>
            { state :=
                { plan := json
                  storage := fun k => if k = "fitness_plan" then some (render json) else st.storage k
                  currentStep := Step.plan }
              alerts := []
              requests := [profile] }

/-! ### Startup initialisers (App.jsx lines 72–78) -/

/-- `useState(() => { try { const cached = localStorage.getItem("fitness_plan");
return cached ? JSON.parse(cached) : null; } catch { return null; } })`. -/
def initPlan (cached : Option String) : Json :=
  match cached with
  | none => Json.null
  | some s => if s = "" then Json.null else (parseJson s).getD Json.null

/-- `useState(plan ? "plan" : "form")`. -/
def initStep (plan : Json) : Step :=
  if truthy plan then Step.plan else Step.form

/-! ### Panel expansion (App.jsx lines 79–80, 542, 589)

Each of the two expansion slots is a single `useState(null)` cell; a day
panel is open iff `expandedDay === idx`, a meal panel iff
`expandedMeal === meal`. -/

def initialExpandedDay : Option Nat := none

def initialExpandedMeal : Option String := none

/-- `setExpandedDay(expandedDay === idx ? null : idx)`. -/
def toggleDay (cur : Option Nat) (idx : Nat) : Option Nat :=
  if cur = some idx then none else some idx

/-- `setExpandedMeal(expandedMeal === meal ? null : meal)`. -/
def toggleMeal (cur : Option String) (meal : String) : Option String :=
  if cur = some meal then none else some meal

def dayExpanded (cur : Option Nat) (idx : Nat) : Bool :=
  cur == some idx

def mealExpanded (cur : Option String) (meal : String) : Bool :=
  cur == some meal

/-! ### The typed plan shape assumed by `exportPDF`

`exportPDF` reads the parsed plan with fixed field accesses; the fields it
guards with `|| []` (the four meal slots and `lifestyleTips`) are the ones
that may be absent, so exactly those are `Option` here. -/

structure Exercise where
  name : String
  sets : String
  reps : String
  rest : String

structure WorkoutDay where
  day : String
  focus : String
  exercises : List Exercise

structure WorkoutPlan where
  overview : String
  days : List WorkoutDay

structure Meals where
  breakfast : Option (List String)
  lunch : Option (List String)
  dinner : Option (List String)
  snacks : Option (List String)

structure DietPlan where
  overview : String
  meals : Meals

structure Plan where
  motivationalQuote : String
  workoutPlan : WorkoutPlan
  dietPlan : DietPlan
  lifestyleTips : Option (List String)

/-! ### Document export (App.jsx lines 299–350)

The model records the sequence of `addLine` emissions (text, font size,
bold flag).  Line wrapping (`splitTextToSize`) and the page-break state
`y` affect only where a line is drawn, never which lines are emitted nor
their order, and the drawing primitives are platform sinks, so they are
not modelled. -/

structure PdfLine where
  txt : String
  fontSize : Nat
  bold : Bool

def addLine (doc : List PdfLine) (txt : String) (fontSize : Nat) (bold : Bool) :
    List PdfLine :=
  doc ++ [⟨txt, fontSize, bold⟩]

/-- Line 330: `` `• ${ex.name}: ${ex.sets} sets × ${ex.reps} reps (Rest: ${ex.rest})` ``. -/
def exerciseLine (ex : Exercise) : String :=
  "• " ++ ex.name ++ ": " ++ ex.sets ++ " sets × " ++ ex.reps ++ " reps (Rest: " ++ ex.rest ++ ")"

/-- Lines 327–332: one bold header then the exercise bullets of a day. -/
def dayLines (doc : List PdfLine) (d : WorkoutDay) : List PdfLine :=
  d.exercises.foldl (fun acc ex => addLine acc (exerciseLine ex) 12 false)
    (addLine doc (d.day ++ " - " ++ d.focus) 12 true)

/-- Lines 337–340: `mealBlock(title, arr)`. -/
def mealBlock (doc : List PdfLine) (title : String) (arr : List String) : List PdfLine :=
  arr.foldl (fun acc i => addLine acc ("• " ++ i) 12 false) (addLine doc title 12 true)

/-- The full `exportPDF` emission sequence for a loaded plan (the handler
is a no-op when no plan is held; callers guard with `if (!plan) return`). -/
def exportPDF (userName : String) (dateStr : String) (p : Plan) : List PdfLine :=
  let doc : List PdfLine := []
  let doc := addLine doc "AI FITNESS COACH - PERSONALIZED PLAN" 16 true
  let doc := addLine doc ("Generated for: " ++ (if userName = "" then "Anonymous" else userName)) 12 false
  let doc := addLine doc ("Date: " ++ dateStr) 12 false
  let doc := addLine doc " " 12 false
  let doc := addLine doc "MOTIVATIONAL QUOTE" 14 true
  let doc := addLine doc p.motivationalQuote 12 false
  let doc := addLine doc "WORKOUT PLAN" 14 true
  let doc := addLine doc p.workoutPlan.overview 12 false
  let doc := p.workoutPlan.days.foldl dayLines doc
  let doc := addLine doc "DIET PLAN" 14 true
  let doc := addLine doc p.dietPlan.overview 12 false
  let m := p.dietPlan.meals
  let doc := mealBlock doc "Breakfast" (m.breakfast.getD [])
  let doc := mealBlock doc "Lunch" (m.lunch.getD [])
  let doc := mealBlock doc "Dinner" (m.dinner.getD [])
  let doc := mealBlock doc "Snacks" (m.snacks.getD [])
  let doc := addLine doc "LIFESTYLE TIPS" 14 true
  (p.lifestyleTips.getD []).enum.foldl
    (fun acc it => addLine acc (String.mk (natToChars (it.1 + 1)) ++ ". " ++ it.2) 12 false) doc

/-! ### Speech (App.jsx lines 252–296) -/

/-- JavaScript property access `j?.key` on a parsed JSON value: `undefined`
(modelled as `Json.null`) when the receiver is not an object or lacks the
key. -/
def jget (j : Json) (key : String) : Json :=
  match j with
  | .obj fields =>
      match fields.lookup key with
      | some v => v
      | none => Json.null
  | _ => Json.null

mutual

/-- JavaScript `String(v)` coercion of a parsed JSON value (the utterance
constructor coerces its argument). -/
def jsStringOf : Json → String
  | .null => "null"
  | .bool true => "true"
  | .bool false => "false"
  | .num n => ⟨intToChars n⟩
  | .str s => s
  | .arr xs => jsArrayString xs
  | .obj _ => "[object Object]"

/-- `Array.prototype.toString`: elements joined with commas, `null`
rendering as the empty string. -/
def jsArrayString : List Json → String
  | [] => ""
  | x :: xs =>
      (match x with
       | Json.null => ""
       | v => jsStringOf v) ++
      (match xs with
       | [] => ""
       | _ => "," ++ jsArrayString xs)

end

/-- Lines 254–257: the section text, computed once, before the provider
branch. -/
def sectionText (plan : Json) (sect : String) : String :=
  if sect = "workout" then
    let ov := jget (jget plan "workoutPlan") "overview"
    if truthy ov then jsStringOf ov else "Workout details."
  else
    let ov := jget (jget plan "dietPlan") "overview"
    if truthy ov then jsStringOf ov else "Diet details."

inductive TtsAction where
  | remoteRequest (voiceId : String) (text : String) : TtsAction
  | nativeSpeak (text : String) : TtsAction
deriving DecidableEq

/-- Outcome of the `fetch` to the speech provider: the promise chain either
rejects (`netError`) or resolves with a `Response`; the code never reads
`res.ok`/`res.status`, so the resolved case carries the status only for
specification purposes. -/
inductive FetchOutcome where
  | netError (msg : String) : FetchOutcome
  | response (status : Nat) : FetchOutcome
deriving DecidableEq

structure TtsResult where
  actions : List TtsAction
  alerts : List String
  audioSet : Bool

/-- Model of `speakSection`.  With a configured ElevenLabs key the fetch is
attempted; on a rejected promise the `catch` logs and falls through to the
browser synthesizer; on a resolved response (any status) the blob is turned
into an audio source and the function returns.  Without a key the browser
synthesizer is used directly.  No path alerts. -/
def speakSection (plan : Json) (sect : String) (elevenKey elevenVoiceId : String)
    (fetch : FetchOutcome) : TtsResult :=
  if ¬ truthy plan then { actions := [], alerts := [], audioSet := false }
  else
    let text := sectionText plan sect
    if elevenKey ≠ "" then
      match fetch with
      | .response _ =>
          { actions := [TtsAction.remoteRequest elevenVoiceId text]
            alerts := []
            audioSet := true }
      | .netError _ =>
          { actions := [TtsAction.remoteRequest elevenVoiceId text, TtsAction.nativeSpeak text]
            alerts := []
            audioSet := false }
    else
      { actions := [TtsAction.nativeSpeak text], alerts := [], audioSet := false }

/-- The provider call failed, as an outcome predicate: a rejected promise
or an HTTP error response. -/
def fetchErrored : FetchOutcome → Prop
  | .netError _ => True
  | .response status => status < 200 ∨ 300 ≤ status

instance : ∀ f, Decidable (fetchErrored f)
  | .netError _ => isTrue trivial
  | .response status => inferInstanceAs (Decidable (status < 200 ∨ 300 ≤ status))

/-! ### Image generation (App.jsx lines 220–249) -/

structure ImagePart where
  inlineData : Option String

inductive ImgOutcome where
  | thrown (msg : String) : ImgOutcome
  | responded (parts : List ImagePart) : ImgOutcome

structure ImgResult where
  selectedImage : Option (String × String)
  alerts : List String
  requests : List String

/-- Lines 225–228: the category-specific photographic prompt. -/
def basePrompt (name ttype : String) : String :=
  if ttype = "exercise" then
    "Create a realistic high-quality photo of \"" ++ name ++
      "\" being performed in a modern gym. Dynamic lighting, crisp details, 4k."
  else
    "Create a realistic high-quality food photo of \"" ++ name ++
      "\" plated beautifully, natural light, restaurant style, 4k."

/-- Lines 235–241: scan the response parts for the first inlined payload. -/
def findInline : List ImagePart → Option String
  | [] => none
  | p :: ps =>
      match p.inlineData with
      | some d => some d
      | none => findInline ps

/-- Model of `generateImage`: missing payload throws
`"No image data returned."`, which the `catch` reports; only a found
payload replaces `selectedImage`. -/
def generateImage (apiKey name ttype : String) (outcome : ImgOutcome)
    (selectedImage : Option (String × String)) : ImgResult :=
  if apiKey = "" then
    { selectedImage := selectedImage, alerts := [planAlertMissingKey], requests := [] }
  else
    match outcome with
    | .thrown msg =>
        { selectedImage := selectedImage
          alerts := ["❌ Image generation failed: " ++ msg]
          requests := [basePrompt name ttype] }
    | .responded parts =>
        match findInline parts with
        | none =>
            { selectedImage := selectedImage
              alerts := ["❌ Image generation failed: " ++ "No image data returned."]
              requests := [basePrompt name ttype] }
        | some d =>
            { selectedImage := some (name, "data:image/png;base64," ++ d)
              alerts := []
              requests := [basePrompt name ttype] }

/-! ### Derived vocabulary used by the specification statements -/

/-- A plan-generation attempt that fails: the oracle promise rejected, or
the stripped response text is not valid JSON. -/
def genAttemptFails : GenOutcome → Bool
  | .thrown _ => true
  | .responded text => (parseJson (cleanedResponse text)).isNone

/-- The characters that may legitimately follow a rendered JSON value
inside a larger rendered document. -/
def boundaryChar (c : Char) : Prop :=
  c = ',' ∨ c = ']' ∨ c = '}'

def boundary : List Char → Prop
  | [] => True
  | c :: _ => boundaryChar c

/-! Fuel bounds for the parser: `jsize j` units of fuel always suffice to
parse `renderChars j`. -/
mutual

def jsize : Json → Nat
  | .null => 1
  | .bool _ => 1
  | .num _ => 1
  | .str s => s.data.length + 2
  | .arr xs => 1 + jsizeElems xs
  | .obj fs => 1 + jsizeMembs fs

def jsizeElems : List Json → Nat
  | [] => 1
  | x :: xs => 1 + jsize x + jsizeElems xs

def jsizeMembs : List (String × Json) → Nat
  | [] => 1
  | (k, v) :: fs => 2 + k.data.length + jsize v + jsizeMembs fs

end

/-- The document chunk emitted for one workout day. -/
def dayChunk (d : WorkoutDay) : List PdfLine :=
  ⟨d.day ++ " - " ++ d.focus, 12, true⟩ ::
    d.exercises.map fun ex => ⟨exerciseLine ex, 12, false⟩

/-- The document chunk emitted for one meal slot. -/
def mealChunk (title : String) (arr : List String) : List PdfLine :=
  ⟨title, 12, true⟩ :: arr.map fun i => ⟨"• " ++ i, 12, false⟩

/-- The numbered lifestyle-tip lines. -/
def tipsChunk (tips : List String) : List PdfLine :=
  tips.enum.map fun it => ⟨String.mk (natToChars (it.1 + 1)) ++ ". " ++ it.2, 12, false⟩

/-- One line per exercise entry, in plan order. -/
def exerciseLinesOf (p : Plan) : List String :=
  p.workoutPlan.days.flatMap fun d => d.exercises.map exerciseLine

/-- One line per meal item, in the order of the meal-slot mapping and its
item lists. -/
def mealItemLinesOf (p : Plan) : List String :=
  (p.dietPlan.meals.breakfast.getD [] ++ p.dietPlan.meals.lunch.getD [] ++
   p.dietPlan.meals.dinner.getD [] ++ p.dietPlan.meals.snacks.getD []).map
    fun i => "• " ++ i

/-- A concrete plan value used to instantiate speech statements. -/
def ttsSamplePlan : Json :=
  Json.obj [("workoutPlan", Json.obj [("overview", Json.str "Push day")])]


lemma foldl_addLine_map {α : Type} (f : α → String) :
    ∀ (l : List α) (doc : List PdfLine),
      l.foldl (fun acc x => addLine acc (f x) 12 false) doc =
        doc ++ l.map fun x => (⟨f x, 12, false⟩ : PdfLine) := by
  intro l
  induction l with
  | nil => intro doc; simp
  | cons x xs ih =>
      intro doc
      simp only [List.foldl_cons, List.map_cons]
      rw [ih]
      simp [addLine]

lemma dayLines_eq (doc : List PdfLine) (d : WorkoutDay) :
    dayLines doc d = doc ++ dayChunk d := by
  have h := foldl_addLine_map exerciseLine d.exercises (addLine doc (d.day ++ " - " ++ d.focus) 12 true)
  simp only [dayLines]
  rw [h]
  simp [addLine, dayChunk, List.append_assoc]

lemma foldl_dayLines (days : List WorkoutDay) :
    ∀ doc, days.foldl dayLines doc = doc ++ days.flatMap dayChunk := by
  induction days with
  | nil => intro doc; simp
  | cons d ds ih =>
      intro doc
      simp only [List.foldl_cons, dayLines_eq, ih]
      simp

lemma mealBlock_eq (doc : List PdfLine) (title : String) (arr : List String) :
    mealBlock doc title arr = doc ++ mealChunk title arr := by
  have h := foldl_addLine_map (fun i => "• " ++ i) arr (addLine doc title 12 true)
  simp only [mealBlock]
  rw [h]
  simp [addLine, mealChunk, List.append_assoc]

theorem exportPDF_shape (userName dateStr : String) (p : Plan) :
    exportPDF userName dateStr p =
      [⟨"AI FITNESS COACH - PERSONALIZED PLAN", 16, true⟩,
       ⟨"Generated for: " ++ (if userName = "" then "Anonymous" else userName), 12, false⟩,
       ⟨"Date: " ++ dateStr, 12, false⟩,
       ⟨" ", 12, false⟩,
       ⟨"MOTIVATIONAL QUOTE", 14, true⟩,
       ⟨p.motivationalQuote, 12, false⟩,
       ⟨"WORKOUT PLAN", 14, true⟩,
       ⟨p.workoutPlan.overview, 12, false⟩] ++
      p.workoutPlan.days.flatMap dayChunk ++
      ([⟨"DIET PLAN", 14, true⟩, ⟨p.dietPlan.overview, 12, false⟩] ++
      (mealChunk "Breakfast" (p.dietPlan.meals.breakfast.getD []) ++
      (mealChunk "Lunch" (p.dietPlan.meals.lunch.getD []) ++
      (mealChunk "Dinner" (p.dietPlan.meals.dinner.getD []) ++
      (mealChunk "Snacks" (p.dietPlan.meals.snacks.getD []) ++
      ([⟨"LIFESTYLE TIPS", 14, true⟩] ++
      tipsChunk (p.lifestyleTips.getD []))))))) := by
  have ht := foldl_addLine_map (fun it : Nat × String => String.mk (natToChars (it.1 + 1)) ++ ". " ++ it.2) (p.lifestyleTips.getD []).enum
  simp only [exportPDF]
  rw [ht]
  simp only [mealBlock_eq, foldl_dayLines, addLine, tipsChunk]
  simp [List.append_assoc]



lemma flatMap_sublist {α β : Type} (f g : α → List β) (l : List α)
    (h : ∀ a, (f a).Sublist (g a)) : (l.flatMap f).Sublist (l.flatMap g) := by
  induction l with
  | nil => simp
  | cons x xs ih => simpa using (h x).append ih

lemma length_dayChunks (days : List WorkoutDay) :
    (days.flatMap dayChunk).length =
      days.length + (days.flatMap fun d => d.exercises.map exerciseLine).length := by
  induction days with
  | nil => rfl
  | cons d ds ih =>
      simp only [List.flatMap_cons, List.length_append, ih, dayChunk,
        List.length_cons, List.length_map]
      omega

/-- C4: the exported document contains the exercise lines and the meal-item
lines as a subsequence — one line per exercise entry and one per meal item,
in the order of the day list, exercise lists, meal-slot mapping and item
lists — and its total line count is exactly the fixed 15 header/section
lines plus one day-header line per day, one line per exercise, one line per
meal item and one line per lifestyle tip, so nothing is omitted or
duplicated. -/
theorem exportPDF_one_line_per_item (userName dateStr : String) (p : Plan) :
    (exerciseLinesOf p ++ mealItemLinesOf p).Sublist
      ((exportPDF userName dateStr p).map PdfLine.txt) ∧
    (exportPDF userName dateStr p).length =
      15 + p.workoutPlan.days.length + (exerciseLinesOf p).length +
        (mealItemLinesOf p).length + (p.lifestyleTips.getD []).length := by
  rw [exportPDF_shape]
  constructor
  · have hex : (exerciseLinesOf p).Sublist
        ((p.workoutPlan.days.flatMap dayChunk).map PdfLine.txt) := by
      rw [List.map_flatMap]
      apply flatMap_sublist
      intro d
      simp only [dayChunk, List.map_cons, List.map_map]
      exact List.sublist_cons_self _ _
    have hslot : ∀ (t : String) (arr : List String),
        (arr.map fun i => "• " ++ i).Sublist ((mealChunk t arr).map PdfLine.txt) := by
      intro t arr
      simp only [mealChunk, List.map_cons, List.map_map]
      exact List.sublist_cons_self _ _
    simp only [List.map_append]
    have hmb := hslot "Breakfast" (p.dietPlan.meals.breakfast.getD [])
    have hml := hslot "Lunch" (p.dietPlan.meals.lunch.getD [])
    have hmd := hslot "Dinner" (p.dietPlan.meals.dinner.getD [])
    have hms := hslot "Snacks" (p.dietPlan.meals.snacks.getD [])
    have h4 : ((p.dietPlan.meals.snacks.getD []).map fun i => "• " ++ i).Sublist
        (((mealChunk "Snacks" (p.dietPlan.meals.snacks.getD [])).map PdfLine.txt) ++
         (([(⟨"LIFESTYLE TIPS", 14, true⟩ : PdfLine)].map PdfLine.txt) ++
          ((tipsChunk (p.lifestyleTips.getD [])).map PdfLine.txt))) :=
      hms.trans (List.sublist_append_left _ _)
    have hmeal : (mealItemLinesOf p).Sublist
        (((mealChunk "Breakfast" (p.dietPlan.meals.breakfast.getD [])).map PdfLine.txt) ++
         (((mealChunk "Lunch" (p.dietPlan.meals.lunch.getD [])).map PdfLine.txt) ++
          (((mealChunk "Dinner" (p.dietPlan.meals.dinner.getD [])).map PdfLine.txt) ++
           (((mealChunk "Snacks" (p.dietPlan.meals.snacks.getD [])).map PdfLine.txt) ++
            (([(⟨"LIFESTYLE TIPS", 14, true⟩ : PdfLine)].map PdfLine.txt) ++
             ((tipsChunk (p.lifestyleTips.getD [])).map PdfLine.txt)))))) := by
      simp only [mealItemLinesOf, List.map_append, List.append_assoc]
      exact hmb.append (hml.append (hmd.append h4))
    have hmeal2 := hmeal.trans (List.sublist_append_right
      (([(⟨"DIET PLAN", 14, true⟩ : PdfLine), ⟨p.dietPlan.overview, 12, false⟩].map PdfLine.txt))
      _)
    have hcore := hex.append hmeal2
    have hwhole := hcore.trans (List.sublist_append_right
      (([⟨"AI FITNESS COACH - PERSONALIZED PLAN", 16, true⟩,
         ⟨"Generated for: " ++ (if userName = "" then "Anonymous" else userName), 12, false⟩,
         ⟨"Date: " ++ dateStr, 12, false⟩,
         ⟨" ", 12, false⟩,
         ⟨"MOTIVATIONAL QUOTE", 14, true⟩,
         ⟨p.motivationalQuote, 12, false⟩,
         ⟨"WORKOUT PLAN", 14, true⟩,
         ⟨p.workoutPlan.overview, 12, false⟩] : List PdfLine).map PdfLine.txt) _)
    refine hwhole.trans ?_
    simp [List.append_assoc]
  · simp only [List.length_append, length_dayChunks, List.length_cons, List.length_map,
      mealChunk, tipsChunk, List.enum_length, List.length_nil, mealItemLinesOf,
      exerciseLinesOf]
    omega

/-! ## Claim theorems -/
lemma trim_self_parts {r : String} (h : jsTrim r = r) :
    r.data.dropWhile isJsWs = r.data ∧ dropRightWhileL isJsWs r.data = r.data := by
  have hdata : dropRightWhileL isJsWs (r.data.dropWhile isJsWs) = r.data :=
    congrArg String.data h
  have h1 : (r.data.dropWhile isJsWs).length ≤ r.data.length :=
    (List.dropWhile_suffix isJsWs).length_le
  have h2 : (dropRightWhileL isJsWs (r.data.dropWhile isJsWs)).length ≤
      (r.data.dropWhile isJsWs).length := by
    simpa [dropRightWhileL] using
      (List.dropWhile_suffix (l := (r.data.dropWhile isJsWs).reverse) isJsWs).length_le
  rw [hdata] at h2
  have hfst : r.data.dropWhile isJsWs = r.data :=
    (List.dropWhile_suffix isJsWs).eq_of_length (le_antisymm h1 h2)
  rw [hfst] at hdata
  exact ⟨hfst, hdata⟩

lemma head_not_ws_of_dropWhile_self {c : Char} {t : List Char}
    (h : (c :: t).dropWhile isJsWs = c :: t) : isJsWs c = false := by
  cases hc : isJsWs c with
  | false => rfl
  | true =>
      rw [List.dropWhile_cons, if_pos hc] at h
      have hle : (t.dropWhile isJsWs).length ≤ t.length :=
        (List.dropWhile_suffix isJsWs).length_le
      have := congrArg List.length h
      simp at this
      omega

/-- C2 (amended): a response wrapped in a fence of the form
```` ```json … ``` ```` is exactly un-fenced by the strip (for the trimmed
response text the code actually feeds it), so the stripped fenced text
parses identically to the unfenced text; a leading fence without the
`json` tag is, however, not removed (see the counterexample). -/
theorem stripFence_json_fence (r : String) (h : jsTrim r = r) :
    stripFence ("```json\n" ++ r ++ "\n```") = r ∧
    parseJson (stripFence ("```json\n" ++ r ++ "\n```")) = parseJson r := by
  obtain ⟨hL, hR⟩ := trim_self_parts h
  have hmain : stripFence ("```json\n" ++ r ++ "\n```") = r := by
    have hdata : ("```json\n" ++ r ++ "\n```").data =
        '`' :: '`' :: '`' :: 'j' :: 's' :: 'o' :: 'n' :: '\n' ::
          (r.data ++ ['\n', '`', '`', '`']) := by
      have e1 : ("```json\n" : String).data = ['`', '`', '`', 'j', 's', 'o', 'n', '\n'] := rfl
      have e2 : ("\n```" : String).data = ['\n', '`', '`', '`'] := rfl
      simp [String.data_append, e1, e2]
    simp only [stripFence, hdata]
    have hpre : (("```json" : String).data).isPrefixOf
        ('`' :: '`' :: '`' :: 'j' :: 's' :: 'o' :: 'n' :: '\n' ::
          (r.data ++ ['\n', '`', '`', '`'])) = true := by
      show List.isPrefixOf ['`', '`', '`', 'j', 's', 'o', 'n'] _ = true
      rfl
    rw [if_pos hpre]
    have hdrop7 : ('`' :: '`' :: '`' :: 'j' :: 's' :: 'o' :: 'n' :: '\n' ::
        (r.data ++ ['\n', '`', '`', '`'])).drop 7 =
        '\n' :: (r.data ++ ['\n', '`', '`', '`']) := rfl
    rw [hdrop7]
    have hnl : isJsWs '\n' = true := rfl
    rw [List.dropWhile_cons, if_pos hnl]
    rcases hr : r.data with _ | ⟨c, t⟩
    · -- empty response text
      have hempty : r = "" := by
        have : r = ⟨r.data⟩ := rfl
        rw [this, hr]
      subst hempty
      rfl
    · have hc : isJsWs c = false := head_not_ws_of_dropWhile_self (hr ▸ hL)
      have hc' : ¬(isJsWs c = true) := by simp [hc]
      have hstep : List.dropWhile isJsWs ((c :: t) ++ ['\n', '`', '`', '`']) =
          (c :: t) ++ ['\n', '`', '`', '`'] := by
        rw [List.cons_append, List.dropWhile_cons, if_neg hc']
      rw [hstep, ← hr]
      have hsplit : r.data ++ ['\n', '`', '`', '`'] =
          (r.data ++ ['\n']) ++ ['`', '`', '`'] := by simp
      have hsuf : (("```" : String).data).isSuffixOf (r.data ++ ['\n', '`', '`', '`']) = true := by
        have : (("```" : String).data) <:+ (r.data ++ ['\n', '`', '`', '`']) := by
          rw [hsplit]
          exact ⟨r.data ++ ['\n'], rfl⟩
        simpa [List.isSuffixOf_iff_suffix] using this
      rw [if_pos hsuf]
      have hlen3 : (r.data ++ ['\n', '`', '`', '`']).length - 3 = (r.data ++ ['\n']).length := by
        simp
      rw [hlen3, hsplit, List.take_left]
      have hrev : dropRightWhileL isJsWs (r.data ++ ['\n']) = r.data := by
        have hRrev : r.data.reverse.dropWhile isJsWs = r.data.reverse := by
          have := congrArg List.reverse hR
          simpa [dropRightWhileL] using this
        simp [dropRightWhileL, List.reverse_append, List.dropWhile_cons, hnl, hRrev]
      rw [hrev]
  exact ⟨hmain, by rw [hmain]⟩



/-- C2 counterexample: a response wrapped in a plain triple-backtick fence
(no `json` tag after the opening backticks) keeps its leading fence, so the
stripped text fails to parse while the same response without fencing
parses — the claim fails for this fencing form. -/
theorem stripFence_plain_fence_not_removed :
    (parseJson (stripFence (jsTrim "```\n[1,2]\n```"))).isNone = true ∧
    (parseJson "[1,2]").isSome = true ∧
    parseJson (stripFence (jsTrim "```\n[1,2]\n```")) ≠ parseJson "[1,2]" := by
  have h1 : (parseJson (stripFence (jsTrim "```\n[1,2]\n```"))).isNone = true := by decide
  have h2 : (parseJson "[1,2]").isSome = true := by decide
  refine ⟨h1, h2, fun he => ?_⟩
  rw [he] at h1
  rw [Option.isNone_iff_eq_none] at h1
  rw [h1] at h2
  simp at h2

/-- Witness for C2 at a concrete trimmed response text. -/
theorem stripFence_json_fence_witness :
    jsTrim "[1,2]" = "[1,2]" ∧
    (stripFence ("```json\n" ++ "[1,2]" ++ "\n```") = "[1,2]" ∧
     parseJson (stripFence ("```json\n" ++ "[1,2]" ++ "\n```")) = parseJson "[1,2]") :=
  ⟨by decide, stripFence_json_fence "[1,2]" (by decide)⟩


/-- C1: with an empty text-generation credential, `generatePlan` issues no
network request, reports the missing credential, and leaves the held plan,
the persisted plan and the view step unchanged, for every profile, prior
state and would-be oracle outcome. -/
theorem generatePlan_empty_key_no_request (profile : UserProfile)
    (outcome : GenOutcome) (st : GenState) :
    generatePlan profile "" outcome st =
      { state := st, alerts := [planAlertMissingKey], requests := [] } := rfl

/-- C3: on a failing plan-generation attempt (rejected promise or stripped
text that is not valid JSON), `generatePlan` alerts and leaves the held
plan, the persisted plan and the view step unchanged. -/
theorem generatePlan_failure_preserves_state (profile : UserProfile)
    (apiKey : String) (outcome : GenOutcome) (st : GenState)
    (hk : apiKey ≠ "") (hf : genAttemptFails outcome = true) :
    (generatePlan profile apiKey outcome st).state = st ∧
    (generatePlan profile apiKey outcome st).alerts ≠ [] := by
  cases outcome with
  | thrown m => simp [generatePlan, hk]
  | responded t =>
      have hnone : parseJson (cleanedResponse t) = none := by
        simpa [genAttemptFails, Option.isNone_iff_eq_none] using hf
      simp [generatePlan, hk, hnone]

/-- Witness for C3 at a concrete syntactically-invalid oracle response. -/
theorem generatePlan_failure_preserves_state_witness :
    ("AIzaX" : String) ≠ "" ∧
    genAttemptFails (GenOutcome.responded (some "oops")) = true ∧
    ((generatePlan
        ⟨"Alex", "30", "male", "180", "75", "muscle_gain", "beginner", "gym",
          "non_veg", "", "moderate"⟩
        "AIzaX" (GenOutcome.responded (some "oops"))
        ⟨Json.null, fun _ => none, Step.form⟩).state =
        ⟨Json.null, fun _ => none, Step.form⟩ ∧
      (generatePlan
        ⟨"Alex", "30", "male", "180", "75", "muscle_gain", "beginner", "gym",
          "non_veg", "", "moderate"⟩
        "AIzaX" (GenOutcome.responded (some "oops"))
        ⟨Json.null, fun _ => none, Step.form⟩).alerts ≠ []) :=
  ⟨by decide, by decide,
    generatePlan_failure_preserves_state _ _ _ _ (by decide) (by decide)⟩

/-- C5: the panel-expansion state holds at most one expanded day and one
expanded meal; selecting a second panel collapses the first and expands the
second; the initial state is fully collapsed. -/
theorem panel_expansion_exclusive :
    (∀ i, dayExpanded initialExpandedDay i = false) ∧
    (∀ m, mealExpanded initialExpandedMeal m = false) ∧
    (∀ a b : Nat, a ≠ b →
      dayExpanded (toggleDay (some a) b) a = false ∧
      dayExpanded (toggleDay (some a) b) b = true) ∧
    (∀ a b : String, a ≠ b →
      mealExpanded (toggleMeal (some a) b) a = false ∧
      mealExpanded (toggleMeal (some a) b) b = true) ∧
    (∀ (cur : Option Nat) (i j : Nat), i ≠ j →
      ¬(dayExpanded cur i = true ∧ dayExpanded cur j = true)) ∧
    (∀ (cur : Option String) (m m' : String), m ≠ m' →
      ¬(mealExpanded cur m = true ∧ mealExpanded cur m' = true)) := by
  refine ⟨fun i => rfl, fun m => rfl, ?_, ?_, ?_, ?_⟩
  · intro a b hab
    constructor
    · simp [toggleDay, dayExpanded, hab, Ne.symm hab]
    · simp [toggleDay, dayExpanded, hab]
  · intro a b hab
    constructor
    · simp [toggleMeal, mealExpanded, hab, Ne.symm hab]
    · simp [toggleMeal, mealExpanded, hab]
  · rintro cur i j hij ⟨h1, h2⟩
    simp only [dayExpanded, beq_iff_eq] at h1 h2
    exact hij (Option.some.inj (h1.symm.trans h2))
  · rintro cur m m' hmm ⟨h1, h2⟩
    simp only [mealExpanded, beq_iff_eq] at h1 h2
    exact hmm (Option.some.inj (h1.symm.trans h2))

/-- Witness for C5 at concrete panels. -/
theorem panel_expansion_exclusive_witness :
    dayExpanded (toggleDay (some 0) 1) 0 = false ∧
    dayExpanded (toggleDay (some 0) 1) 1 = true ∧
    mealExpanded (toggleMeal (some "breakfast") "lunch") "breakfast" = false ∧
    mealExpanded (toggleMeal (some "breakfast") "lunch") "lunch" = true ∧
    ¬(dayExpanded (some 2) 2 = true ∧ dayExpanded (some 2) 3 = true) := by
  have h := panel_expansion_exclusive
  exact ⟨(h.2.2.1 0 1 (by decide)).1, (h.2.2.1 0 1 (by decide)).2,
    (h.2.2.2.1 "breakfast" "lunch" (by decide)).1,
    (h.2.2.2.1 "breakfast" "lunch" (by decide)).2,
    h.2.2.2.2.1 (some 2) 2 3 (by decide)⟩

lemma findInline_eq_none {parts : List ImagePart}
    (h : ∀ p ∈ parts, p.inlineData = none) : findInline parts = none := by
  induction parts with
  | nil => rfl
  | cons p ps ih =>
      have hp : p.inlineData = none := h p (List.mem_cons_self p ps)
      simp only [findInline, hp]
      exact ih fun q hq => h q (List.mem_cons_of_mem p hq)

/-- C8: an image response with no inlined payload in any part is reported
as a failure and leaves the displayed image selection unchanged. -/
theorem generateImage_no_payload (apiKey name ttype : String)
    (parts : List ImagePart) (sel : Option (String × String))
    (hk : apiKey ≠ "") (hp : ∀ p ∈ parts, p.inlineData = none) :
    (generateImage apiKey name ttype (ImgOutcome.responded parts) sel).selectedImage = sel ∧
    (generateImage apiKey name ttype (ImgOutcome.responded parts) sel).alerts ≠ [] := by
  simp [generateImage, hk, findInline_eq_none hp]

/-- Witness for C8 at a concrete payload-free response. -/
theorem generateImage_no_payload_witness :
    ("AIzaX" : String) ≠ "" ∧
    (∀ p ∈ [ImagePart.mk none], p.inlineData = none) ∧
    ((generateImage "AIzaX" "Bench Press" "exercise"
        (ImgOutcome.responded [ImagePart.mk none]) none).selectedImage = none ∧
      (generateImage "AIzaX" "Bench Press" "exercise"
        (ImgOutcome.responded [ImagePart.mk none]) none).alerts ≠ []) :=
  ⟨by decide, by decide,
    generateImage_no_payload _ _ _ _ _ (by decide) (by decide)⟩

/-- C9: `exportPDF` treats a missing meal slot and a missing lifestyle-tips
list as empty: the emitted document is identical to the one for the plan
with those fields defaulted to empty lists, so a plan lacking them still
exports instead of failing. -/
theorem exportPDF_defaults_missing_sections (userName dateStr : String) (p : Plan) :
    exportPDF userName dateStr p =
      exportPDF userName dateStr
        { p with
            dietPlan :=
              { p.dietPlan with
                  meals :=
                    { breakfast := some (p.dietPlan.meals.breakfast.getD [])
                      lunch := some (p.dietPlan.meals.lunch.getD [])
                      dinner := some (p.dietPlan.meals.dinner.getD [])
                      snacks := some (p.dietPlan.meals.snacks.getD []) } }
            lifestyleTips := some (p.lifestyleTips.getD []) } ∧
    exportPDF userName dateStr p ≠ [] := by
  refine ⟨rfl, ?_⟩
  rw [exportPDF_shape]
  simp

/-- C7 counterexample: with a remote key configured, an HTTP error response
(status 500) from the speech provider is an errored request, yet
`speakSection` produces no native-synthesizer fallback for it. -/
theorem speakSection_http_error_no_fallback :
    fetchErrored (FetchOutcome.response 500) ∧
    truthy ttsSamplePlan = true ∧
    TtsAction.nativeSpeak (sectionText ttsSamplePlan "workout") ∉
      (speakSection ttsSamplePlan "workout" "elkey" "voice"
        (FetchOutcome.response 500)).actions :=
  ⟨by decide, by decide, by decide⟩

/-- C7 (amended): with a remote key, the remote request is always attempted
with the section text; a rejected fetch promise (network error) falls back
to the native synthesizer with the same text, while a resolved response of
any HTTP status is played as audio with no fallback; without a key the
native synthesizer is used directly; no path alerts the user. -/
theorem speakSection_provider_paths (plan : Json) (sect elevenKey voiceId : String)
    (fetch : FetchOutcome) (hp : truthy plan = true) :
    (elevenKey ≠ "" →
      (∀ m, fetch = FetchOutcome.netError m →
        (speakSection plan sect elevenKey voiceId fetch).actions =
          [TtsAction.remoteRequest voiceId (sectionText plan sect),
           TtsAction.nativeSpeak (sectionText plan sect)]) ∧
      (∀ status, fetch = FetchOutcome.response status →
        (speakSection plan sect elevenKey voiceId fetch).actions =
          [TtsAction.remoteRequest voiceId (sectionText plan sect)])) ∧
    (elevenKey = "" →
      (speakSection plan sect elevenKey voiceId fetch).actions =
        [TtsAction.nativeSpeak (sectionText plan sect)]) ∧
    (speakSection plan sect elevenKey voiceId fetch).alerts = [] := by
  refine ⟨fun hk => ⟨?_, ?_⟩, fun hk => ?_, ?_⟩
  · rintro m rfl; simp [speakSection, hp, hk]
  · rintro status rfl; simp [speakSection, hp, hk]
  · subst hk; simp [speakSection, hp]
  · cases fetch <;> by_cases hk : elevenKey = "" <;> simp [speakSection, hp, hk]

/-- Witness for C7 at a concrete plan, both with and without a remote key. -/
theorem speakSection_provider_paths_witness :
    truthy ttsSamplePlan = true ∧
    ("elkey" : String) ≠ "" ∧
    (speakSection ttsSamplePlan "workout" "elkey" "voice"
        (FetchOutcome.netError "boom")).actions =
      [TtsAction.remoteRequest "voice" (sectionText ttsSamplePlan "workout"),
       TtsAction.nativeSpeak (sectionText ttsSamplePlan "workout")] ∧
    (speakSection ttsSamplePlan "diet" "" "voice"
        (FetchOutcome.netError "boom")).actions =
      [TtsAction.nativeSpeak (sectionText ttsSamplePlan "diet")] := by
  have h1 := speakSection_provider_paths ttsSamplePlan "workout" "elkey" "voice"
    (FetchOutcome.netError "boom") (by decide)
  have h2 := speakSection_provider_paths ttsSamplePlan "diet" "" "voice"
    (FetchOutcome.netError "boom") (by decide)
  exact ⟨by decide, by decide, (h1.1 (by decide)).1 "boom" rfl, h2.2.1 rfl⟩

/-- C10 counterexample: the cached string `"null"` is valid JSON, yet startup
yields the data-entry form, not the plan-display step. -/
theorem startup_valid_json_not_plan_step :
    (parseJson "null").isSome = true ∧
    initStep (initPlan (some "null")) = Step.form ∧
    initStep (initPlan (some "null")) ≠ Step.plan :=
  ⟨by decide, by decide, by decide⟩

/-- C10 (amended): startup never fails — an absent or malformed cached plan
gives a null held plan and the data-entry form; cached valid JSON parsing
to a truthy value gives the plan-display step, while cached valid JSON
parsing to a falsy value (null, false, 0 or the empty string) gives the
data-entry form. -/
theorem startup_initialisation :
    (initPlan none = Json.null ∧ initStep (initPlan none) = Step.form) ∧
    (∀ s : String, (parseJson s).isNone = true →
      initPlan (some s) = Json.null ∧ initStep (initPlan (some s)) = Step.form) ∧
    (∀ s : String, (parseJson s).isSome = true →
      truthy (initPlan (some s)) = true → initStep (initPlan (some s)) = Step.plan) ∧
    (∀ s : String, truthy (initPlan (some s)) = false →
      initStep (initPlan (some s)) = Step.form) := by
  refine ⟨⟨rfl, rfl⟩, ?_, ?_, ?_⟩
  · intro s hs
    have hn : parseJson s = none := by simpa [Option.isNone_iff_eq_none] using hs
    by_cases he : s = "" <;> simp [initPlan, he, hn, initStep, truthy]
  · intro s _ ht; simp [initStep, ht]
  · intro s ht; simp [initStep, ht]

/-- Witness for C10 covering malformed, truthy-valid and falsy-valid caches. -/
theorem startup_initialisation_witness :
    ((parseJson "oops").isNone = true ∧
      initPlan (some "oops") = Json.null ∧
      initStep (initPlan (some "oops")) = Step.form) ∧
    ((parseJson "[1]").isSome = true ∧
      truthy (initPlan (some "[1]")) = true ∧
      initStep (initPlan (some "[1]")) = Step.plan) ∧
    (truthy (initPlan (some "false")) = false ∧
      initStep (initPlan (some "false")) = Step.form) := by
  have h := startup_initialisation
  exact ⟨⟨by decide, h.2.1 "oops" (by decide)⟩,
    ⟨by decide, by decide, h.2.2.1 "[1]" (by decide) (by decide)⟩,
    ⟨by decide, h.2.2.2 "false" (by decide)⟩⟩

/-! ## The persistence round trip (C6) -/

lemma jsize_pos : ∀ j : Json, 1 ≤ jsize j := by
  intro j
  cases j <;> simp only [jsize] <;> omega

lemma digitChar_toNat {d : Nat} (h : d < 10) : (digitChar d).toNat = 48 + d := by
  interval_cases d <;> decide

lemma digitChar_digit {d : Nat} (h : d < 10) : isDigitChar (digitChar d) = true := by
  simp [isDigitChar, digitChar_toNat h]
  omega

lemma digitVal_digitChar {d : Nat} (h : d < 10) : digitVal (digitChar d) = d := by
  simp [digitVal, digitChar_toNat h]

lemma natToCharsAux_spec : ∀ fuel n, n < fuel →
    (∀ c ∈ natToCharsAux fuel n, isDigitChar c = true) ∧
    natToCharsAux fuel n ≠ [] ∧
    ∀ a : Nat, (natToCharsAux fuel n).foldl (fun x d => x * 10 + digitVal d) a =
      a * 10 ^ (natToCharsAux fuel n).length + n := by
  intro fuel
  induction fuel with
  | zero => intro n h; omega
  | succ f ih =>
      intro n h
      by_cases h10 : n < 10
      · rw [natToCharsAux, if_pos h10]
        refine ⟨?_, by simp, ?_⟩
        · intro c hc
          rw [List.mem_singleton] at hc
          subst hc
          exact digitChar_digit h10
        · intro a
          simp [digitVal_digitChar h10]
      · rw [natToCharsAux, if_neg h10]
        have hrec : n / 10 < f := by omega
        obtain ⟨hd, hne, hfold⟩ := ih (n / 10) hrec
        refine ⟨?_, by simp, ?_⟩
        · intro c hc
          rw [List.mem_append] at hc
          rcases hc with hc | hc
          · exact hd c hc
          · rw [List.mem_singleton] at hc
            subst hc
            exact digitChar_digit (Nat.mod_lt _ (by omega))
        · intro a
          rw [List.foldl_append, hfold a]
          simp [digitVal_digitChar (Nat.mod_lt (x := n) (y := 10) (by omega)),
            List.length_append, Nat.pow_succ]
          ring_nf
          omega

lemma natToChars_spec (n : Nat) :
    (∀ c ∈ natToChars n, isDigitChar c = true) ∧
    natToChars n ≠ [] ∧
    (natToChars n).foldl (fun x d => x * 10 + digitVal d) 0 = n := by
  obtain ⟨h1, h2, h3⟩ := natToCharsAux_spec (n + 1) n (by omega)
  refine ⟨h1, h2, ?_⟩
  simpa using h3 0

lemma takeWhile_append_all {p : Char → Bool} {l1 l2 : List Char}
    (h : ∀ c ∈ l1, p c = true) :
    (l1 ++ l2).takeWhile p = l1 ++ l2.takeWhile p ∧
    (l1 ++ l2).dropWhile p = l2.dropWhile p := by
  induction l1 with
  | nil => simp
  | cons c t ih =>
      have hc := h c (by simp)
      obtain ⟨ih1, ih2⟩ := ih fun x hx => h x (by simp [hx])
      simp [List.takeWhile_cons, List.dropWhile_cons, hc, ih1, ih2]

lemma boundary_not_digit {rest : List Char} (hb : boundary rest) :
    rest.takeWhile isDigitChar = [] ∧ rest.dropWhile isDigitChar = rest := by
  cases rest with
  | nil => simp
  | cons c t =>
      have hc : isDigitChar c = false := by
        rcases hb with h | h | h <;> subst h <;> decide
      simp [List.takeWhile_cons, List.dropWhile_cons, hc]

lemma parseNatChars_render (n : Nat) (rest : List Char) (hb : boundary rest) :
    parseNatChars (natToChars n ++ rest) = some (n, rest) := by
  obtain ⟨hdig, hne, hfold⟩ := natToChars_spec n
  obtain ⟨c, t, hct⟩ : ∃ c t, natToChars n = c :: t := by
    cases hh : natToChars n with
    | nil => exact absurd hh hne
    | cons c t => exact ⟨c, t, rfl⟩
  have hcons : natToChars n ++ rest = c :: (t ++ rest) := by rw [hct]; rfl
  obtain ⟨htake, hdrop⟩ := @takeWhile_append_all isDigitChar (natToChars n) rest hdig
  obtain ⟨hbt, hbd⟩ := boundary_not_digit hb
  have hcdig : isDigitChar c = true := hdig c (by rw [hct]; simp)
  rw [hcons, parseNatChars, if_pos hcdig, ← hcons, htake, hbt, hdrop, hbd,
    List.append_nil, hfold]

lemma isDigitChar_toNat {c : Char} (h : isDigitChar c = true) :
    48 ≤ c.toNat ∧ c.toNat ≤ 57 := by
  simp [isDigitChar] at h
  omega

lemma char_ne_of_toNat_ne {a b : Char} (h : a.toNat ≠ b.toNat) : ¬(a = b) :=
  fun he => h (congrArg Char.toNat he)

lemma digit_ne_lit {c : Char} (h : isDigitChar c = true) (d : Char)
    (hd : d.toNat < 48 ∨ 57 < d.toNat) : ¬(c = d) := by
  obtain ⟨h1, h2⟩ := isDigitChar_toNat h
  exact char_ne_of_toNat_ne (by omega)

lemma isDigitChar_not_ws {c : Char} (h : isDigitChar c = true) : isJsonWs c = false := by
  obtain ⟨h1, h2⟩ := isDigitChar_toNat h
  simp [isJsonWs]
  omega

lemma skipWs_cons_not_ws {c : Char} {t : List Char} (h : isJsonWs c = false) :
    skipWs (c :: t) = c :: t := by
  simp [skipWs, List.dropWhile_cons, h]

lemma parseNumber_render (n : Int) (rest : List Char) (hb : boundary rest) :
    parseNumber (intToChars n ++ rest) = some (Json.num n, rest) := by
  by_cases hneg : n < 0
  · rw [intToChars, if_pos hneg, List.cons_append, parseNumber, if_pos rfl,
      parseNatChars_render n.natAbs rest hb]
    have he : (-(n.natAbs : Int)) = n := by omega
    simp only [Option.map_some']
    rw [he]
  · rw [intToChars, if_neg hneg]
    obtain ⟨hdig, hne, _⟩ := natToChars_spec n.natAbs
    obtain ⟨c, t, hct⟩ : ∃ c t, natToChars n.natAbs = c :: t := by
      cases hh : natToChars n.natAbs with
      | nil => exact absurd hh hne
      | cons c t => exact ⟨c, t, rfl⟩
    have hcdig : isDigitChar c = true := hdig c (by rw [hct]; simp)
    have hcons : natToChars n.natAbs ++ rest = c :: (t ++ rest) := by rw [hct]; rfl
    have hcdash : ¬(c = '-') := digit_ne_lit hcdig '-' (by decide)
    rw [hcons, parseNumber, if_neg hcdash, ← hcons, parseNatChars_render n.natAbs rest hb]
    have he : ((n.natAbs : Int)) = n := by omega
    simp only [Option.map_some']
    rw [he]

lemma hexVal_hexDigitChar {d : Nat} (h : d < 16) : hexVal? (hexDigitChar d) = some d := by
  interval_cases d <;> decide

lemma parseStr_plain (f : Nat) (X : List Char) (c : Char)
    (h1 : ¬(c = '\"')) (h2 : ¬(c = '\\')) :
    parseStr (f + 1) (c :: X) = (parseStr f X).map fun p => (c :: p.1, p.2) := by
  simp only [parseStr]
  rw [if_neg h1, if_neg h2]

lemma parseStr_u (f : Nat) (X : List Char) (h3 h4 : Char) (a b : Nat)
    (e3 : hexVal? h3 = some a) (e4 : hexVal? h4 = some b) :
    parseStr (f + 1) ('\\' :: 'u' :: '0' :: '0' :: h3 :: h4 :: X) =
      (parseStr f X).map fun p => (Char.ofNat (0 * 4096 + 0 * 256 + a * 16 + b) :: p.1, p.2) := by
  simp only [parseStr, e3, e4, show hexVal? '0' = some 0 from rfl,
    show ('\\' = '\"') = False by simp, if_true, if_false]

lemma parseStr_render : ∀ (cs : List Char) (rest : List Char) (fuel : Nat),
    cs.length < fuel →
    parseStr fuel (cs.flatMap escChar ++ ('\"' :: rest)) = some (cs, rest) := by
  intro cs
  induction cs with
  | nil =>
      intro rest fuel h
      obtain ⟨f, rfl⟩ : ∃ f, fuel = f + 1 := ⟨fuel - 1, by omega⟩
      rfl
  | cons c t ih =>
      intro rest fuel h
      obtain ⟨f, rfl⟩ : ∃ f, fuel = f + 1 := ⟨fuel - 1, by omega⟩
      have iht := ih rest f (by simp at h; omega)
      have hinput : (c :: t).flatMap escChar ++ ('\"' :: rest) =
          escChar c ++ (t.flatMap escChar ++ ('\"' :: rest)) := by
        simp [List.flatMap_cons, List.append_assoc]
      rw [hinput]
      by_cases h1 : c = '\"'
      · subst h1
        rw [show escChar '\"' = ['\\', '\"'] from rfl]
        rw [show parseStr (f + 1)
            (['\\', '\"'] ++ (t.flatMap escChar ++ ('\"' :: rest))) =
          (parseStr f (t.flatMap escChar ++ ('\"' :: rest))).map
            (fun p => ('\"' :: p.1, p.2)) from rfl, iht]
        rfl
      by_cases h2 : c = '\\'
      · subst h2
        rw [show escChar '\\' = ['\\', '\\'] from rfl]
        rw [show parseStr (f + 1)
            (['\\', '\\'] ++ (t.flatMap escChar ++ ('\"' :: rest))) =
          (parseStr f (t.flatMap escChar ++ ('\"' :: rest))).map
            (fun p => ('\\' :: p.1, p.2)) from rfl, iht]
        rfl
      by_cases h3 : c = '\n'
      · subst h3
        rw [show escChar '\n' = ['\\', 'n'] from rfl]
        rw [show parseStr (f + 1)
            (['\\', 'n'] ++ (t.flatMap escChar ++ ('\"' :: rest))) =
          (parseStr f (t.flatMap escChar ++ ('\"' :: rest))).map
            (fun p => ('\n' :: p.1, p.2)) from rfl, iht]
        rfl
      by_cases h4 : c = '\t'
      · subst h4
        rw [show escChar '\t' = ['\\', 't'] from rfl]
        rw [show parseStr (f + 1)
            (['\\', 't'] ++ (t.flatMap escChar ++ ('\"' :: rest))) =
          (parseStr f (t.flatMap escChar ++ ('\"' :: rest))).map
            (fun p => ('\t' :: p.1, p.2)) from rfl, iht]
        rfl
      by_cases h5 : c = '\r'
      · subst h5
        rw [show escChar '\r' = ['\\', 'r'] from rfl]
        rw [show parseStr (f + 1)
            (['\\', 'r'] ++ (t.flatMap escChar ++ ('\"' :: rest))) =
          (parseStr f (t.flatMap escChar ++ ('\"' :: rest))).map
            (fun p => ('\r' :: p.1, p.2)) from rfl, iht]
        rfl
      by_cases h6 : c = '\x08'
      · subst h6
        rw [show escChar '\x08' = ['\\', 'b'] from rfl]
        rw [show parseStr (f + 1)
            (['\\', 'b'] ++ (t.flatMap escChar ++ ('\"' :: rest))) =
          (parseStr f (t.flatMap escChar ++ ('\"' :: rest))).map
            (fun p => ('\x08' :: p.1, p.2)) from rfl, iht]
        rfl
      by_cases h7 : c = '\x0c'
      · subst h7
        rw [show escChar '\x0c' = ['\\', 'f'] from rfl]
        rw [show parseStr (f + 1)
            (['\\', 'f'] ++ (t.flatMap escChar ++ ('\"' :: rest))) =
          (parseStr f (t.flatMap escChar ++ ('\"' :: rest))).map
            (fun p => ('\x0c' :: p.1, p.2)) from rfl, iht]
        rfl
      by_cases h8 : c.toNat < 32
      · have hesc : escChar c =
            ['\\', 'u', '0', '0', hexDigitChar (c.toNat / 16), hexDigitChar (c.toNat % 16)] := by
          rw [escChar, if_neg h1, if_neg h2, if_neg h3, if_neg h4, if_neg h5, if_neg h6,
            if_neg h7, if_pos h8]
        rw [hesc]
        have hcons : (['\\', 'u', '0', '0', hexDigitChar (c.toNat / 16),
            hexDigitChar (c.toNat % 16)] : List Char) ++ (t.flatMap escChar ++ ('\"' :: rest)) =
            '\\' :: 'u' :: '0' :: '0' :: hexDigitChar (c.toNat / 16) ::
              hexDigitChar (c.toNat % 16) :: (t.flatMap escChar ++ ('\"' :: rest)) := rfl
        rw [hcons, parseStr_u f _ _ _ (c.toNat / 16) (c.toNat % 16)
          (hexVal_hexDigitChar (by omega)) (hexVal_hexDigitChar (by omega)), iht]
        have hc : Char.ofNat (c.toNat / 16 * 16 + c.toNat % 16) = c := by
          have h9 : c.toNat / 16 * 16 + c.toNat % 16 = c.toNat := by omega
          rw [h9, Char.ofNat_toNat]
        simp [hc]
      · have hesc : escChar c = [c] := by
          rw [escChar, if_neg h1, if_neg h2, if_neg h3, if_neg h4, if_neg h5, if_neg h6,
            if_neg h7, if_neg h8]
        rw [hesc, show ([c] : List Char) ++ (t.flatMap escChar ++ ('\"' :: rest)) =
          c :: (t.flatMap escChar ++ ('\"' :: rest)) from rfl,
          parseStr_plain f _ c h1 h2, iht]
        rfl

lemma renderChars_head (j : Json) :
    ∃ c t, renderChars j = c :: t ∧ isJsonWs c = false ∧ ¬(c = ']') ∧ ¬(c = '}') := by
  cases j with
  | null => refine ⟨'n', _, rfl, ?_, ?_, ?_⟩ <;> decide
  | bool b =>
      cases b
      · refine ⟨'f', _, rfl, ?_, ?_, ?_⟩ <;> decide
      · refine ⟨'t', _, rfl, ?_, ?_, ?_⟩ <;> decide
  | num n =>
      by_cases hneg : n < 0
      · refine ⟨'-', natToChars n.natAbs, ?_, by decide, by decide, by decide⟩
        rw [show renderChars (Json.num n) = intToChars n from rfl, intToChars, if_pos hneg]
      · obtain ⟨hdig, hne, _⟩ := natToChars_spec n.natAbs
        obtain ⟨c, t, hct⟩ : ∃ c t, natToChars n.natAbs = c :: t := by
          cases hh : natToChars n.natAbs with
          | nil => exact absurd hh hne
          | cons c t => exact ⟨c, t, rfl⟩
        have hcd : isDigitChar c = true := hdig c (by rw [hct]; simp)
        refine ⟨c, t, ?_, isDigitChar_not_ws hcd, digit_ne_lit hcd ']' (by decide),
          digit_ne_lit hcd '}' (by decide)⟩
        rw [show renderChars (Json.num n) = intToChars n from rfl, intToChars, if_neg hneg, hct]
  | str s => refine ⟨'\"', _, rfl, ?_, ?_, ?_⟩ <;> decide
  | arr xs => refine ⟨'[', _, rfl, ?_, ?_, ?_⟩ <;> decide
  | obj fs => refine ⟨'{', _, rfl, ?_, ?_, ?_⟩ <;> decide

lemma parseVal_num_dispatch (f : Nat) (c : Char) (t : List Char)
    (hd : isDigitChar c = true) :
    parseVal (f + 1) (c :: t) = parseNumber (c :: t) := by
  simp only [parseVal, skipWs_cons_not_ws (isDigitChar_not_ws hd)]
  rw [if_neg (digit_ne_lit hd '\"' (by decide)),
    if_neg (digit_ne_lit hd '[' (by decide)),
    if_neg (digit_ne_lit hd '{' (by decide)),
    if_neg (digit_ne_lit hd 'n' (by decide)),
    if_neg (digit_ne_lit hd 't' (by decide)),
    if_neg (digit_ne_lit hd 'f' (by decide))]

lemma parseVal_arr_dispatch (f : Nat) (c : Char) (t : List Char)
    (hws : isJsonWs c = false) (hne : ¬(c = ']')) :
    parseVal (f + 1) ('[' :: (c :: t)) =
      (parseElems f (c :: t)).map fun p => (Json.arr p.1, p.2) := by
  simp only [parseVal,
    show skipWs ('[' :: (c :: t)) = '[' :: (c :: t) from skipWs_cons_not_ws (by decide),
    show ('[' = '\"') = False by simp, if_false, if_true,
    show ('[' = '[') = True by simp, skipWs_cons_not_ws hws]
  rw [if_neg hne]

lemma parseVal_obj_dispatch (f : Nat) (c : Char) (t : List Char)
    (hws : isJsonWs c = false) (hne : ¬(c = '}')) :
    parseVal (f + 1) ('{' :: (c :: t)) =
      (parseMembs f (c :: t)).map fun p => (Json.obj p.1, p.2) := by
  simp only [parseVal,
    show skipWs ('{' :: (c :: t)) = '{' :: (c :: t) from skipWs_cons_not_ws (by decide),
    show ('{' = '\"') = False by simp, show ('{' = '[') = False by simp,
    if_false, if_true, show ('{' = '{') = True by simp, skipWs_cons_not_ws hws]
  rw [if_neg hne]

theorem parse_render_all : ∀ N : Nat,
    (∀ j : Json, jsize j ≤ N → ∀ (rest : List Char) (fuel : Nat), jsize j ≤ fuel →
      boundary rest → parseVal fuel (renderChars j ++ rest) = some (j, rest)) ∧
    (∀ xs : List Json, xs ≠ [] → jsizeElems xs ≤ N → ∀ (rest : List Char) (fuel : Nat),
      jsizeElems xs ≤ fuel → boundary rest →
      parseElems fuel (renderList xs ++ (']' :: rest)) = some (xs, rest)) ∧
    (∀ fs : List (String × Json), fs ≠ [] → jsizeMembs fs ≤ N → ∀ (rest : List Char) (fuel : Nat),
      jsizeMembs fs ≤ fuel → boundary rest →
      parseMembs fuel (renderMembers fs ++ ('}' :: rest)) = some (fs, rest)) := by
  intro N
  induction N using Nat.strong_induction_on with
  | _ N ih =>
  refine ⟨?_, ?_, ?_⟩
  · intro j hN rest fuel hfuel hb
    have h1 := jsize_pos j
    obtain ⟨f, rfl⟩ : ∃ f, fuel = f + 1 := ⟨fuel - 1, by omega⟩
    cases j with
    | null => rfl
    | bool b => cases b <;> rfl
    | num n =>
        by_cases hneg : n < 0
        · have hform : intToChars n ++ rest = '-' :: (natToChars n.natAbs ++ rest) := by
            rw [intToChars, if_pos hneg]; rfl
          rw [show renderChars (Json.num n) = intToChars n from rfl, hform]
          rw [show parseVal (f + 1) ('-' :: (natToChars n.natAbs ++ rest)) =
            parseNumber ('-' :: (natToChars n.natAbs ++ rest)) from rfl]
          rw [← hform]
          exact parseNumber_render n rest hb
        · obtain ⟨hdig, hne, _⟩ := natToChars_spec n.natAbs
          obtain ⟨c, t, hct⟩ : ∃ c t, natToChars n.natAbs = c :: t := by
            cases hh : natToChars n.natAbs with
            | nil => exact absurd hh hne
            | cons c t => exact ⟨c, t, rfl⟩
          have hcd : isDigitChar c = true := hdig c (by rw [hct]; simp)
          have hform : intToChars n ++ rest = c :: (t ++ rest) := by
            rw [intToChars, if_neg hneg, hct]; rfl
          rw [show renderChars (Json.num n) = intToChars n from rfl, hform,
            parseVal_num_dispatch f c _ hcd, ← hform]
          exact parseNumber_render n rest hb
    | str s =>
        have hlen : s.data.length < f := by
          simp only [jsize] at hfuel
          omega
        have hform : renderChars (Json.str s) ++ rest =
            '\"' :: (s.data.flatMap escChar ++ ('\"' :: rest)) := by
          show ('\"' :: (s.data.flatMap escChar ++ ['\"'])) ++ rest = _
          simp [List.append_assoc]
        rw [hform]
        rw [show parseVal (f + 1) ('\"' :: (s.data.flatMap escChar ++ ('\"' :: rest))) =
          (parseStr f (s.data.flatMap escChar ++ ('\"' :: rest))).map
            (fun p => (Json.str ⟨p.1⟩, p.2)) from rfl]
        rw [parseStr_render s.data rest f hlen]
        rfl
    | arr xs =>
        cases xs with
        | nil => rfl
        | cons x xs' =>
            obtain ⟨c, t2, hct, hws, hne1, _⟩ := renderChars_head x
            have hlist : ∃ W, renderList (x :: xs') ++ (']' :: rest) =
                renderChars x ++ W := by
              cases xs' with
              | nil => exact ⟨']' :: rest, by rw [show renderList [x] = renderChars x from rfl]⟩
              | cons y t' =>
                  refine ⟨',' :: (renderList (y :: t') ++ (']' :: rest)), ?_⟩
                  rw [show renderList (x :: y :: t') =
                    renderChars x ++ ',' :: renderList (y :: t') from rfl]
                  simp [List.append_assoc]
            obtain ⟨W, hW⟩ := hlist
            have hform : renderChars (Json.arr (x :: xs')) ++ rest =
                '[' :: (renderList (x :: xs') ++ (']' :: rest)) := by
              show ('[' :: (renderList (x :: xs') ++ [']'])) ++ rest = _
              simp [List.append_assoc]
            have hcons : renderList (x :: xs') ++ (']' :: rest) = c :: (t2 ++ W) := by
              rw [hW, hct]; rfl
            have hEsz : jsizeElems (x :: xs') ≤ f := by
              simp only [jsize] at hfuel
              omega
            have hElt : jsizeElems (x :: xs') < N := by
              simp only [jsize] at hN
              omega
            rw [hform, hcons, parseVal_arr_dispatch f c _ hws hne1, ← hcons,
              (ih (jsizeElems (x :: xs')) hElt).2.1 (x :: xs') (by simp) le_rfl rest f hEsz hb]
            rfl
    | obj fs =>
        cases fs with
        | nil => rfl
        | cons m fs' =>
            obtain ⟨k, v⟩ := m
            have hlist : ∃ W, renderMembers ((k, v) :: fs') ++ ('}' :: rest) =
                '\"' :: W := by
              cases fs' with
              | nil =>
                  refine ⟨(k.data.flatMap escChar ++ ['\"']) ++ (':' :: (renderChars v ++ ('}' :: rest))), ?_⟩
                  rw [show renderMembers [(k, v)] =
                    renderStringChars k ++ ':' :: renderChars v from rfl, renderStringChars]
                  simp [List.append_assoc]
              | cons m2 t' =>
                  refine ⟨(k.data.flatMap escChar ++ ['\"']) ++
                    (':' :: (renderChars v ++ (',' :: (renderMembers (m2 :: t') ++ ('}' :: rest))))), ?_⟩
                  rw [show renderMembers ((k, v) :: m2 :: t') =
                    renderStringChars k ++ ':' :: renderChars v ++ ',' :: renderMembers (m2 :: t') from rfl,
                    renderStringChars]
                  simp [List.append_assoc]
            obtain ⟨W, hW⟩ := hlist
            have hform : renderChars (Json.obj ((k, v) :: fs')) ++ rest =
                '{' :: (renderMembers ((k, v) :: fs') ++ ('}' :: rest)) := by
              show ('{' :: (renderMembers ((k, v) :: fs') ++ ['}'])) ++ rest = _
              simp [List.append_assoc]
            have hMsz : jsizeMembs ((k, v) :: fs') ≤ f := by
              simp only [jsize] at hfuel
              omega
            have hMlt : jsizeMembs ((k, v) :: fs') < N := by
              simp only [jsize] at hN
              omega
            rw [hform, hW, parseVal_obj_dispatch f '\"' _ (by decide) (by decide), ← hW,
              (ih (jsizeMembs ((k, v) :: fs')) hMlt).2.2 ((k, v) :: fs') (by simp) le_rfl rest f hMsz hb]
            rfl
  · intro xs hnil hN rest fuel hfuel hb
    cases xs with
    | nil => exact absurd rfl hnil
    | cons x xs' =>
        have hpos := jsize_pos x
        simp only [jsizeElems] at hN hfuel
        obtain ⟨g, rfl⟩ : ∃ g, fuel = g + 1 := ⟨fuel - 1, by omega⟩
        cases xs' with
        | nil =>
            have hx := (ih (jsize x) (by omega)).1 x le_rfl (']' :: rest) g (by omega)
              (Or.inr (Or.inl rfl))
            rw [show renderList [x] = renderChars x from rfl]
            simp only [parseElems, hx, skipWs_cons_not_ws (show isJsonWs ']' = false by decide),
              show (']' = ',') = False by simp, if_false,
              show (']' = ']') = True by simp, if_true]
        | cons y t' =>
            have hform : renderList (x :: y :: t') ++ (']' :: rest) =
                renderChars x ++ (',' :: (renderList (y :: t') ++ (']' :: rest))) := by
              rw [show renderList (x :: y :: t') =
                renderChars x ++ ',' :: renderList (y :: t') from rfl]
              simp [List.append_assoc]
            have hx := (ih (jsize x) (by omega)).1 x le_rfl
              (',' :: (renderList (y :: t') ++ (']' :: rest))) g (by omega) (Or.inl rfl)
            have hreclt : jsizeElems (y :: t') < N := by omega
            have hrec := (ih (jsizeElems (y :: t')) hreclt).2.1 (y :: t') (by simp) le_rfl
              rest g (by omega) hb
            rw [hform]
            simp only [parseElems, hx, skipWs_cons_not_ws (show isJsonWs ',' = false by decide),
              show (',' = ',') = True by simp, if_true, hrec, Option.map_some']
  · intro fs hnil hN rest fuel hfuel hb
    cases fs with
    | nil => exact absurd rfl hnil
    | cons m fs' =>
        obtain ⟨k, v⟩ := m
        have hpos := jsize_pos v
        simp only [jsizeMembs] at hN hfuel
        obtain ⟨g, rfl⟩ : ∃ g, fuel = g + 1 := ⟨fuel - 1, by omega⟩
        have hklen : k.data.length < g := by omega
        cases fs' with
        | nil =>
            have hform : renderMembers [(k, v)] ++ ('}' :: rest) =
                '\"' :: (k.data.flatMap escChar ++
                  ('\"' :: (':' :: (renderChars v ++ ('}' :: rest))))) := by
              rw [show renderMembers [(k, v)] =
                renderStringChars k ++ ':' :: renderChars v from rfl, renderStringChars]
              simp [List.append_assoc]
            have hkey := parseStr_render k.data (':' :: (renderChars v ++ ('}' :: rest))) g hklen
            have hv := (ih (jsize v) (by omega)).1 v le_rfl ('}' :: rest) g (by omega)
              (Or.inr (Or.inr rfl))
            rw [hform]
            simp only [parseMembs, skipWs_cons_not_ws (show isJsonWs '\"' = false by decide),
              show ('\"' = '\"') = True by simp, if_true, hkey,
              skipWs_cons_not_ws (show isJsonWs ':' = false by decide),
              show (':' = ':') = True by simp, hv,
              skipWs_cons_not_ws (show isJsonWs '}' = false by decide),
              show ('}' = ',') = False by simp, if_false,
              show ('}' = '}') = True by simp]
        | cons m2 t' =>
            have hform : renderMembers ((k, v) :: m2 :: t') ++ ('}' :: rest) =
                '\"' :: (k.data.flatMap escChar ++
                  ('\"' :: (':' :: (renderChars v ++
                    (',' :: (renderMembers (m2 :: t') ++ ('}' :: rest))))))) := by
              rw [show renderMembers ((k, v) :: m2 :: t') =
                renderStringChars k ++ ':' :: renderChars v ++
                  ',' :: renderMembers (m2 :: t') from rfl, renderStringChars]
              simp [List.append_assoc]
            have hkey := parseStr_render k.data
              (':' :: (renderChars v ++ (',' :: (renderMembers (m2 :: t') ++ ('}' :: rest))))) g hklen
            have hv := (ih (jsize v) (by omega)).1 v le_rfl
              (',' :: (renderMembers (m2 :: t') ++ ('}' :: rest))) g (by omega) (Or.inl rfl)
            have hreclt : jsizeMembs (m2 :: t') < N := by omega
            have hrec := (ih (jsizeMembs (m2 :: t')) hreclt).2.2 (m2 :: t') (by simp) le_rfl
              rest g (by omega) hb
            rw [hform]
            simp only [parseMembs, skipWs_cons_not_ws (show isJsonWs '\"' = false by decide),
              show ('\"' = '\"') = True by simp, if_true, hkey,
              skipWs_cons_not_ws (show isJsonWs ':' = false by decide),
              show (':' = ':') = True by simp, hv,
              skipWs_cons_not_ws (show isJsonWs ',' = false by decide),
              show (',' = ',') = True by simp, hrec, Option.map_some']

lemma escChar_length_pos (c : Char) : 1 ≤ (escChar c).length := by
  rw [escChar]
  split_ifs <;> simp

lemma flatMap_escChar_length (l : List Char) : l.length ≤ (l.flatMap escChar).length := by
  induction l with
  | nil => simp
  | cons c t ih =>
      simp only [List.flatMap_cons, List.length_append, List.length_cons]
      have := escChar_length_pos c
      omega

lemma natToChars_length_pos (n : Nat) : 1 ≤ (natToChars n).length := by
  obtain ⟨-, hne, -⟩ := natToChars_spec n
  cases h : natToChars n with
  | nil => exact absurd h hne
  | cons c t => simp

lemma intToChars_length_pos (n : Int) : 1 ≤ (intToChars n).length := by
  rw [intToChars]
  split_ifs
  · simp
  · exact natToChars_length_pos _

lemma jsize_le_render : ∀ N : Nat,
    (∀ j : Json, jsize j ≤ N → jsize j ≤ 2 * (renderChars j).length) ∧
    (∀ xs : List Json, jsizeElems xs ≤ N → jsizeElems xs ≤ 2 * (renderList xs).length + 2) ∧
    (∀ fs : List (String × Json), jsizeMembs fs ≤ N →
      jsizeMembs fs ≤ 2 * (renderMembers fs).length + 2) := by
  intro N
  induction N using Nat.strong_induction_on with
  | _ N ih =>
  refine ⟨?_, ?_, ?_⟩
  · intro j hN
    cases j with
    | null => simp [jsize, renderChars]
    | bool b => cases b <;> simp [jsize, renderChars]
    | num n =>
        have := intToChars_length_pos n
        simp only [jsize, show renderChars (Json.num n) = intToChars n from rfl]
        omega
    | str s =>
        have := flatMap_escChar_length s.data
        simp only [jsize, show renderChars (Json.str s) = renderStringChars s from rfl,
          renderStringChars, List.length_cons, List.length_append]
        omega
    | arr xs =>
        have hlt : jsizeElems xs < N := by
          simp only [jsize] at hN
          omega
        have h2 := (ih (jsizeElems xs) hlt).2.1 xs le_rfl
        simp only [jsize, show renderChars (Json.arr xs) = '[' :: renderList xs ++ [']'] from rfl,
          List.length_append, List.length_cons]
        omega
    | obj fs =>
        have hlt : jsizeMembs fs < N := by
          simp only [jsize] at hN
          omega
        have h2 := (ih (jsizeMembs fs) hlt).2.2 fs le_rfl
        simp only [jsize, show renderChars (Json.obj fs) = '{' :: renderMembers fs ++ ['}'] from rfl,
          List.length_append, List.length_cons]
        omega
  · intro xs hN
    cases xs with
    | nil => simp [jsizeElems, renderList]
    | cons x xs' =>
        have hxpos := jsize_pos x
        have hxlt : jsize x < N := by
          simp only [jsizeElems] at hN
          omega
        have hx := (ih (jsize x) hxlt).1 x le_rfl
        cases xs' with
        | nil =>
            simp only [jsizeElems, show renderList [x] = renderChars x from rfl]
            omega
        | cons y t =>
            have hstep : jsizeElems (x :: y :: t) = 1 + jsize x + jsizeElems (y :: t) := rfl
            have hrlt : jsizeElems (y :: t) < N := by
              rw [hstep] at hN
              omega
            have hr := (ih (jsizeElems (y :: t)) hrlt).2.1 (y :: t) le_rfl
            have hren : (renderList (x :: y :: t)).length =
                (renderChars x).length + 1 + (renderList (y :: t)).length := by
              rw [show renderList (x :: y :: t) =
                renderChars x ++ ',' :: renderList (y :: t) from rfl]
              simp only [List.length_append, List.length_cons, List.length_nil]
              omega
            rw [hstep, hren]
            omega
  · intro fs hN
    cases fs with
    | nil => simp [jsizeMembs, renderMembers]
    | cons m fs' =>
        obtain ⟨k, v⟩ := m
        have hvpos := jsize_pos v
        have hklen := flatMap_escChar_length k.data
        have hvlt : jsize v < N := by
          simp only [jsizeMembs] at hN
          omega
        have hv := (ih (jsize v) hvlt).1 v le_rfl
        cases fs' with
        | nil =>
            simp only [jsizeMembs, show renderMembers [(k, v)] =
              renderStringChars k ++ ':' :: renderChars v from rfl,
              renderStringChars, List.length_append, List.length_cons, List.length_nil]
            omega
        | cons m2 t =>
            have hstep : jsizeMembs ((k, v) :: m2 :: t) =
                2 + k.data.length + jsize v + jsizeMembs (m2 :: t) := rfl
            have hrlt : jsizeMembs (m2 :: t) < N := by
              rw [hstep] at hN
              omega
            have hr := (ih (jsizeMembs (m2 :: t)) hrlt).2.2 (m2 :: t) le_rfl
            have hren : (renderMembers ((k, v) :: m2 :: t)).length =
                (k.data.flatMap escChar).length + 2 + 1 + (renderChars v).length +
                  1 + (renderMembers (m2 :: t)).length := by
              rw [show renderMembers ((k, v) :: m2 :: t) =
                renderStringChars k ++ ':' :: renderChars v ++
                  ',' :: renderMembers (m2 :: t) from rfl, renderStringChars]
              simp only [List.length_append, List.length_cons, List.length_nil]
              omega
            rw [hstep, hren]
            omega

/-- The round trip at the string level: the model of `JSON.parse` inverts
the model of `JSON.stringify` on every JSON value. -/
theorem parseJson_render (j : Json) : parseJson (render j) = some j := by
  have hb : jsize j ≤ 2 * (renderChars j).length + 2 := by
    have := (jsize_le_render (jsize j)).1 j le_rfl
    omega
  have h := (parse_render_all (jsize j)).1 j le_rfl [] (2 * (renderChars j).length + 2) hb trivial
  rw [List.append_nil] at h
  have hd : (render j).data = renderChars j := rfl
  simp only [parseJson, hd, h]
  rfl

lemma render_ne_empty (j : Json) : render j ≠ "" := by
  obtain ⟨c, t, hct, -, -, -⟩ := renderChars_head j
  intro h
  have hdata : renderChars j = ([] : List Char) := congrArg String.data h
  rw [hct] at hdata
  simp at hdata

/-- C6: a plan produced by a successful generation (no alert raised),
persisted under the `fitness_plan` key by `generatePlan` and reloaded by
the startup initialiser, is reproduced structurally identical to the held
plan. -/
theorem generatePlan_persist_reload (profile : UserProfile) (apiKey : String)
    (outcome : GenOutcome) (st : GenState)
    (hok : (generatePlan profile apiKey outcome st).alerts = []) :
    initPlan ((generatePlan profile apiKey outcome st).state.storage "fitness_plan") =
      (generatePlan profile apiKey outcome st).state.plan := by
  by_cases hk : apiKey = ""
  · subst hk
    simp [generatePlan, planAlertMissingKey] at hok
  · cases outcome with
    | thrown m => simp [generatePlan, hk] at hok
    | responded t =>
        cases hp : parseJson (cleanedResponse t) with
        | none => simp [generatePlan, hk, hp] at hok
        | some j =>
            simp only [generatePlan, if_neg hk, hp]
            simp [initPlan, render_ne_empty j, parseJson_render j]

/-- Witness for C6 at a concrete successful generation. -/
theorem generatePlan_persist_reload_witness :
    (generatePlan
        ⟨"Alex", "30", "male", "180", "75", "muscle_gain", "beginner", "gym",
          "non_veg", "", "moderate"⟩
        "AIzaX" (GenOutcome.responded (some "[1]"))
        ⟨Json.null, fun _ => none, Step.form⟩).alerts = [] ∧
    initPlan ((generatePlan
        ⟨"Alex", "30", "male", "180", "75", "muscle_gain", "beginner", "gym",
          "non_veg", "", "moderate"⟩
        "AIzaX" (GenOutcome.responded (some "[1]"))
        ⟨Json.null, fun _ => none, Step.form⟩).state.storage "fitness_plan") =
      (generatePlan
        ⟨"Alex", "30", "male", "180", "75", "muscle_gain", "beginner", "gym",
          "non_veg", "", "moderate"⟩
        "AIzaX" (GenOutcome.responded (some "[1]"))
        ⟨Json.null, fun _ => none, Step.form⟩).state.plan :=
  ⟨by decide, generatePlan_persist_reload _ _ _ _ (by decide)⟩

end FitnessApp
